import Mathlib

/-!
Shallow embedding of the KyivAlertVisualizer pipeline (src/main.py).

Texts are modelled as lists of characters; timestamps as integers
(seconds, UTC); coordinates as rationals (only their equality with zero
matters to the pipeline, so exact rationals are adequate).  The external
collaborators — the stanza NER model, the pymorphy3 morphological
analyzer, the Nominatim geocoding backend and the wall clock — are
passed in as explicit function parameters, mirroring the module-level
singletons of the source.
-/

/-- A piece of text (Python `str`), modelled as a list of characters. -/
abbrev Str := List Char

/-- A named entity produced by the NER model: `ent.type` and `ent.text`
(src/main.py, `doc.ents` elements used in `extract_locations`). -/
structure Ent where
  type : Str
  text : Str
deriving DecidableEq

/-- One row of the `locations.csv` store: columns
`message, place, lat, lon, timestamp` (src/main.py `save_to_csv`).
`lat`/`lon` are optional because `save_to_csv` would happily write a
missing value if its caller passed one. -/
structure AlertRecord where
  message : Str
  place : Str
  lat : Option ℚ
  lon : Option ℚ
  timestamp : Int
deriving DecidableEq

/-- Outcome of one call to the external geocoding backend
(`geolocator.geocode(query)`): the call may raise, return no match
(`None`), or return a location carrying a coordinate pair. -/
inductive GeoOutcome where
  | raised
  | noMatch
  | found (lat lon : ℚ)
deriving DecidableEq

/-- Marker color chosen by `update_map` ("red" / "yellow" / "gray"). -/
inductive Color where
  | red
  | yellow
  | gray
deriving DecidableEq

/-- A `folium.CircleMarker` as constructed in `update_map`
(src/main.py lines 129-137). -/
structure CircleMarker where
  location : Option ℚ × Option ℚ
  radius : Nat
  popup : Str
  color : Color
  fill : Bool
  fill_color : Color
  fill_opacity : ℚ
deriving DecidableEq

/-- The `folium.Map` built by `update_map`: fixed center, fixed zoom,
plus the circle markers added to it. -/
structure FoliumMap where
  location : ℚ × ℚ
  zoom_start : Nat
  markers : List CircleMarker
deriving DecidableEq

/-- Python `str.split()` (no argument): split on runs of whitespace,
discarding empty tokens.  Auxiliary: `acc` is the current token being
accumulated, in reverse. -/
def pySplitAux : List Char → List Char → List (List Char)
  | [], acc => if acc = [] then [] else [acc.reverse]
  | c :: cs, acc =>
    if c.isWhitespace then
      if acc = [] then pySplitAux cs []
      else acc.reverse :: pySplitAux cs []
    else pySplitAux cs (c :: acc)

/-- Python `phrase.split()`. -/
def pySplit (s : Str) : List Str := pySplitAux s []

/-- Python space-join: the join method of a single-space string. -/
def joinSpaces : List Str → Str
  | [] => []
  | [w] => w
  | w :: v :: ws => w ++ ' ' :: joinSpaces (v :: ws)

/-- Model of `normalize_phrase` (src/main.py lines 76-85): split the phrase on
whitespace, replace each token by the normal form of its first
morphological parse when the analyzer returns any parse, keep it
verbatim otherwise, and rejoin with single spaces.  `parse w` models
`[x.normal_form for x in morph.parse(w)]`. -/
def normalize_phrase (parse : Str → List Str) (phrase : Str) : Str :=
  joinSpaces ((pySplit phrase).map (fun w =>
    match parse w with
    | [] => w
    | n :: _ => n))

/-- Model of `normalize_case` (src/main.py lines 69-74): single-word variant of
the same fallback. -/
def normalize_case (parse : Str → List Str) (word : Str) : Str :=
  match parse word with
  | [] => word
  | n :: _ => n

/-- Model of `extract_locations` (src/main.py lines 59-67): walk the NER
entities in order, and for each entity tagged `LOC` append the
*normalized* span text to the result list. -/
def extract_locations (nlp : Str → List Ent) (parse : Str → List Str)
    (text : Str) : List Str :=
  (nlp text).foldl (fun locs ent =>
    if ent.type = ['L', 'O', 'C'] then locs ++ [normalize_phrase parse ent.text]
    else locs) []

/-- Model of `geocode_location` (src/main.py lines 87-96): query the backend; if
it raises, the exception is swallowed and `(None, None)` returned; if it
returns no match, `(None, None)`; otherwise the coordinate pair. -/
def geocode_location (backend : Str → GeoOutcome) (name : Str) :
    Option ℚ × Option ℚ :=
  match backend name with
  | .found la lo => (some la, some lo)
  | _ => (none, none)

/-- Model of `save_to_csv` (src/main.py lines 98-104): append one row to the
store; when no timestamp is passed, the current wall-clock time `now`
is used (`datetime.now(timezone.utc)`). -/
def save_to_csv (message place : Str) (lat lon : Option ℚ)
    (timestamp : Option Int) (now : Int) (store : List AlertRecord) :
    List AlertRecord :=
  let ts := match timestamp with
    | none => now
    | some t => t
  store ++ [⟨message, place, lat, lon, ts⟩]

/-- The retention filter of `update_map` (src/main.py line 116):
keeping rows with now minus timestamp at most one hour.  One hour is 3600
seconds. -/
def keptRecords (records : List AlertRecord) (now : Int) : List AlertRecord :=
  records.filter (fun r => decide (now - r.timestamp ≤ 3600))

/-- The tier color of `update_map` (src/main.py lines 121-127):
`red` for age up to 15 min (900 s), `yellow` up to 30 min (1800 s),
`gray` otherwise (records older than one hour were already filtered
out before this choice is made). -/
def tier_color (age : Int) : Color :=
  if age ≤ 900 then .red
  else if age ≤ 1800 then .yellow
  else .gray

/-- The `folium.CircleMarker` `update_map` builds for one kept row
(src/main.py lines 129-137). -/
def markerFor (now : Int) (r : AlertRecord) : CircleMarker :=
  { location := (r.lat, r.lon)
    radius := 6
    popup := r.message
    color := tier_color (now - r.timestamp)
    fill := true
    fill_color := tier_color (now - r.timestamp)
    fill_opacity := 7 / 10 }

/-- Model of `update_map` (src/main.py lines 108-144): read the store, keep only
rows at most one hour old, build a map centered on Kyiv
(50.4501, 30.5234) at zoom 10 with one circle marker per kept row, and
write the pruned row set back as the new store.  Returns the rendered
map together with the new store contents. -/
def update_map (records : List AlertRecord) (now : Int) :
    FoliumMap × List AlertRecord :=
  let df := keptRecords records now
  ({ location := (504501 / 10000, 305234 / 10000)
     zoom_start := 10
     markers := df.map (markerFor now) }, df)

/-- One iteration of the location loop in `telegram_handler`
(src/main.py lines 157-161): geocode `loc`; the row is saved only when
`lat and lon` is truthy in Python, i.e. both are non-`None` and
non-zero.  `k` counts the wall-clock reads so far; a saved row is
stamped with `clk k` (the `datetime.now` of its own `save_to_csv`
call). -/
def handleLoc (backend : Str → GeoOutcome) (clk : Nat → Int)
    (text loc : Str) (k : Nat) (store : List AlertRecord) :
    List AlertRecord × Nat :=
  match geocode_location backend loc with
  | (some la, some lo) =>
    if la ≠ 0 ∧ lo ≠ 0 then
      (save_to_csv text loc (some la) (some lo) none (clk k) store, k + 1)
    else (store, k)
  | (_, _) => (store, k)

/-- The location loop of `telegram_handler`. -/
def processLocs (backend : Str → GeoOutcome) (clk : Nat → Int)
    (text : Str) : List Str → Nat → List AlertRecord →
    List AlertRecord × Nat
  | [], k, store => (store, k)
  | loc :: rest, k, store =>
    processLocs backend clk text rest
      (handleLoc backend clk text loc k store).2
      (handleLoc backend clk text loc k store).1

/-- Model of `telegram_handler` (src/main.py lines 151-163): on an inbound
message, do nothing when the text is empty; otherwise extract and
normalize the locations and run the geocode-and-save loop.  Returns the
resulting store contents. -/
def telegram_handler (nlp : Str → List Ent) (parse : Str → List Str)
    (backend : Str → GeoOutcome) (clk : Nat → Int)
    (text : Str) (store : List AlertRecord) : List AlertRecord :=
  if text = [] then store
  else (processLocs backend clk text (extract_locations nlp parse text) 0 store).1

/-! Helper lemmas -/

theorem mem_keptRecords {r : AlertRecord} {recs : List AlertRecord} {now : Int} :
    r ∈ keptRecords recs now ↔ r ∈ recs ∧ now - r.timestamp ≤ 3600 := by
  simp [keptRecords, List.mem_filter]

/-! Claims -/

/-- C9: rendering the empty store succeeds for any `now`, producing a
map with zero markers centered on the fixed Kyiv anchor
(50.4501, 30.5234) at the fixed zoom 10, and an empty new store. -/
theorem render_empty_store (now : Int) :
    update_map [] now =
      ({ location := (504501 / 10000, 305234 / 10000)
         zoom_start := 10
         markers := [] }, []) := rfl

/-- C2: the prune pass of `update_map` is exact — every record it keeps
is at most one hour old, every input record it discards is strictly
over one hour old, and every input record within the window is kept. -/
theorem prune_window_exact (recs : List AlertRecord) (now : Int) :
    (∀ r ∈ (update_map recs now).2, now - r.timestamp ≤ 3600) ∧
    (∀ r ∈ recs, r ∉ (update_map recs now).2 → now - r.timestamp > 3600) ∧
    (∀ r ∈ recs, now - r.timestamp ≤ 3600 → r ∈ (update_map recs now).2) := by
  refine ⟨fun r hr => ?_, fun r hr hnot => ?_, fun r hr hle => ?_⟩
  · exact (mem_keptRecords.mp hr).2
  · by_contra hle
    exact hnot (mem_keptRecords.mpr ⟨hr, by omega⟩)
  · exact mem_keptRecords.mpr ⟨hr, hle⟩

/-- C2 witness: with `now = 4000`, a record of age 3000 is kept and a
record of age 4000 is reported strictly older than one hour. -/
theorem prune_window_exact_witness :
    (⟨[], [], none, none, 1000⟩ : AlertRecord) ∈
      (update_map [⟨[], [], none, none, 1000⟩, ⟨[], [], none, none, 0⟩] 4000).2 ∧
    (4000 : Int) - (⟨[], [], none, none, 0⟩ : AlertRecord).timestamp > 3600 := by
  refine ⟨(prune_window_exact [⟨[], [], none, none, 1000⟩, ⟨[], [], none, none, 0⟩]
      4000).2.2 _ (by simp) (by decide), ?_⟩
  exact (prune_window_exact [⟨[], [], none, none, 1000⟩, ⟨[], [], none, none, 0⟩]
      4000).2.1 _ (by simp) (by decide)

/-- C1: tier boundaries are exact.  A record of age exactly 900 s
(15:00) is rendered red (critical); 901 s is yellow (warning); 1800 s
(30:00) is yellow; 1801 s is gray (stale); 3600 s (60:00) is gray and
still rendered; any age strictly over 3600 s (in particular 3601 s) is
excluded from the rendered rows.  The last conjunct ties the artifact
to the kept rows: its markers are exactly the kept rows' markers. -/
theorem tier_boundaries_exact :
    (∀ recs (now : Int) r, r ∈ recs → now - r.timestamp = 900 →
      r ∈ keptRecords recs now ∧
      markerFor now r ∈ (update_map recs now).1.markers ∧
      (markerFor now r).color = Color.red) ∧
    (∀ recs (now : Int) r, r ∈ recs → now - r.timestamp = 901 →
      r ∈ keptRecords recs now ∧
      markerFor now r ∈ (update_map recs now).1.markers ∧
      (markerFor now r).color = Color.yellow) ∧
    (∀ recs (now : Int) r, r ∈ recs → now - r.timestamp = 1800 →
      r ∈ keptRecords recs now ∧
      markerFor now r ∈ (update_map recs now).1.markers ∧
      (markerFor now r).color = Color.yellow) ∧
    (∀ recs (now : Int) r, r ∈ recs → now - r.timestamp = 1801 →
      r ∈ keptRecords recs now ∧
      markerFor now r ∈ (update_map recs now).1.markers ∧
      (markerFor now r).color = Color.gray) ∧
    (∀ recs (now : Int) r, r ∈ recs → now - r.timestamp = 3600 →
      r ∈ keptRecords recs now ∧
      markerFor now r ∈ (update_map recs now).1.markers ∧
      (markerFor now r).color = Color.gray) ∧
    (∀ recs (now : Int) r, now - r.timestamp > 3600 →
      r ∉ keptRecords recs now) ∧
    (∀ recs (now : Int),
      (update_map recs now).1.markers = (keptRecords recs now).map (markerFor now)) := by
  have hmem : ∀ recs (now : Int) r, r ∈ recs → now - r.timestamp ≤ 3600 →
      markerFor now r ∈ (update_map recs now).1.markers := by
    intro recs now r hr hle
    exact List.mem_map_of_mem _ (mem_keptRecords.mpr ⟨hr, hle⟩)
  refine ⟨?_, ?_, ?_, ?_, ?_, ?_, fun recs now => rfl⟩
  · intro recs now r hr hage
    refine ⟨mem_keptRecords.mpr ⟨hr, by omega⟩, hmem recs now r hr (by omega), ?_⟩
    simp [markerFor, tier_color, hage]
  · intro recs now r hr hage
    refine ⟨mem_keptRecords.mpr ⟨hr, by omega⟩, hmem recs now r hr (by omega), ?_⟩
    simp [markerFor, tier_color, hage]
  · intro recs now r hr hage
    refine ⟨mem_keptRecords.mpr ⟨hr, by omega⟩, hmem recs now r hr (by omega), ?_⟩
    simp [markerFor, tier_color, hage]
  · intro recs now r hr hage
    refine ⟨mem_keptRecords.mpr ⟨hr, by omega⟩, hmem recs now r hr (by omega), ?_⟩
    simp [markerFor, tier_color, hage]
  · intro recs now r hr hage
    refine ⟨mem_keptRecords.mpr ⟨hr, by omega⟩, hmem recs now r hr (by omega), ?_⟩
    simp [markerFor, tier_color, hage]
  · intro recs now r hage h
    have := (mem_keptRecords.mp h).2
    omega

/-- C1 witness: concrete records of ages 900, 901, 1800, 1801, 3600 and
3601 seconds at `now = 10000` take the claimed colors, and the 3601 s
one is excluded. -/
theorem tier_boundaries_exact_witness :
    (markerFor 10000 (⟨[], [], none, none, 9100⟩ : AlertRecord)).color = Color.red ∧
    (markerFor 10000 (⟨[], [], none, none, 9099⟩ : AlertRecord)).color = Color.yellow ∧
    (markerFor 10000 (⟨[], [], none, none, 8200⟩ : AlertRecord)).color = Color.yellow ∧
    (markerFor 10000 (⟨[], [], none, none, 8199⟩ : AlertRecord)).color = Color.gray ∧
    ((⟨[], [], none, none, 6400⟩ : AlertRecord) ∈
        keptRecords [⟨[], [], none, none, 6400⟩] 10000 ∧
      (markerFor 10000 (⟨[], [], none, none, 6400⟩ : AlertRecord)).color = Color.gray) ∧
    (⟨[], [], none, none, 6399⟩ : AlertRecord) ∉
        keptRecords [⟨[], [], none, none, 6399⟩] 10000 := by
  refine ⟨?_, ?_, ?_, ?_, ⟨?_, ?_⟩, ?_⟩
  · exact (tier_boundaries_exact.1 [⟨[], [], none, none, 9100⟩] 10000
      ⟨[], [], none, none, 9100⟩ (by simp) (by decide)).2.2
  · exact (tier_boundaries_exact.2.1 [⟨[], [], none, none, 9099⟩] 10000
      ⟨[], [], none, none, 9099⟩ (by simp) (by decide)).2.2
  · exact (tier_boundaries_exact.2.2.1 [⟨[], [], none, none, 8200⟩] 10000
      ⟨[], [], none, none, 8200⟩ (by simp) (by decide)).2.2
  · exact (tier_boundaries_exact.2.2.2.1 [⟨[], [], none, none, 8199⟩] 10000
      ⟨[], [], none, none, 8199⟩ (by simp) (by decide)).2.2
  · exact (tier_boundaries_exact.2.2.2.2.1 [⟨[], [], none, none, 6400⟩] 10000
      ⟨[], [], none, none, 6400⟩ (by simp) (by decide)).1
  · exact (tier_boundaries_exact.2.2.2.2.1 [⟨[], [], none, none, 6400⟩] 10000
      ⟨[], [], none, none, 6400⟩ (by simp) (by decide)).2.2
  · exact tier_boundaries_exact.2.2.2.2.2.1 [⟨[], [], none, none, 6399⟩] 10000
      ⟨[], [], none, none, 6399⟩ (by decide)

/-- C5: every failure mode of the geocoding backend — an exception
raised by the call or a no-match result — yields the same empty result
`(none, none)` from `geocode_location`; no error escapes (the function
is total by construction). -/
theorem geocode_failures_collapse (backend : Str → GeoOutcome) (name : Str)
    (h : backend name = GeoOutcome.raised ∨ backend name = GeoOutcome.noMatch) :
    geocode_location backend name = (none, none) := by
  rcases h with h | h <;> simp [geocode_location, h]

/-- C5 witness: a backend that raises and one that finds no match both
give `(none, none)` on a concrete name. -/
theorem geocode_failures_collapse_witness :
    geocode_location (fun _ => GeoOutcome.raised) ['K'] = (none, none) ∧
    geocode_location (fun _ => GeoOutcome.noMatch) ['K'] = (none, none) :=
  ⟨geocode_failures_collapse (fun _ => GeoOutcome.raised) ['K'] (Or.inl rfl),
   geocode_failures_collapse (fun _ => GeoOutcome.noMatch) ['K'] (Or.inr rfl)⟩

/-- C8: appending a record via `save_to_csv` (with its own timestamp)
and then taking the one-hour snapshot that `update_map` computes
returns a record equal to the appended one in every field, provided
the window covers it. -/
theorem append_snapshot_roundtrip (store : List AlertRecord)
    (r : AlertRecord) (now dflt : Int) (h : now - r.timestamp ≤ 3600) :
    ∃ s ∈ keptRecords
        (save_to_csv r.message r.place r.lat r.lon (some r.timestamp) dflt store) now,
      s.message = r.message ∧ s.place = r.place ∧ s.lat = r.lat ∧
      s.lon = r.lon ∧ s.timestamp = r.timestamp := by
  refine ⟨r, mem_keptRecords.mpr ⟨?_, h⟩, rfl, rfl, rfl, rfl, rfl⟩
  simp [save_to_csv]

/-- C8 witness: a concrete record appended to the empty store is found
intact in the snapshot five minutes later. -/
theorem append_snapshot_roundtrip_witness :
    (300 : Int) - (⟨['m'], ['p'], some 1, some 2, 0⟩ : AlertRecord).timestamp ≤ 3600 ∧
    ∃ s ∈ keptRecords
        (save_to_csv ['m'] ['p'] (some 1) (some 2) (some 0) 300 []) 300,
      s.message = ['m'] ∧ s.place = ['p'] ∧ s.lat = some 1 ∧
      s.lon = some 2 ∧ s.timestamp = 0 :=
  ⟨by decide,
   append_snapshot_roundtrip [] ⟨['m'], ['p'], some 1, some 2, 0⟩ 300 300 (by decide)⟩

/-! Lemmas about the location loop -/

theorem handleLoc_spec (b : Str → GeoOutcome) (clk : Nat → Int)
    (txt loc : Str) (k : Nat) (store : List AlertRecord) :
    handleLoc b clk txt loc k store = (store, k) ∨
    ∃ la lo, geocode_location b loc = (some la, some lo) ∧ la ≠ 0 ∧ lo ≠ 0 ∧
      handleLoc b clk txt loc k store =
        (store ++ [⟨txt, loc, some la, some lo, clk k⟩], k + 1) := by
  cases hb : b loc with
  | raised => left; simp [handleLoc, geocode_location, hb]
  | noMatch => left; simp [handleLoc, geocode_location, hb]
  | found la lo =>
    have hg : geocode_location b loc = (some la, some lo) := by
      simp [geocode_location, hb]
    by_cases hc : la ≠ 0 ∧ lo ≠ 0
    · right
      exact ⟨la, lo, hg, hc.1, hc.2, by simp [handleLoc, hg, hc, save_to_csv]⟩
    · left; simp [handleLoc, hg, hc]

theorem handleLoc_append (b : Str → GeoOutcome) (clk : Nat → Int)
    (txt loc : Str) (k : Nat) (store : List AlertRecord) :
    (handleLoc b clk txt loc k store).1 =
      store ++ (handleLoc b clk txt loc k []).1 ∧
    (handleLoc b clk txt loc k store).2 = (handleLoc b clk txt loc k []).2 := by
  cases hb : b loc with
  | raised => simp [handleLoc, geocode_location, hb]
  | noMatch => simp [handleLoc, geocode_location, hb]
  | found la lo =>
    have hg : geocode_location b loc = (some la, some lo) := by
      simp [geocode_location, hb]
    by_cases hc : la ≠ 0 ∧ lo ≠ 0 <;>
      simp [handleLoc, hg, hc, save_to_csv]

theorem processLocs_append (b : Str → GeoOutcome) (clk : Nat → Int)
    (txt : Str) (locs : List Str) : ∀ (k : Nat) (store : List AlertRecord),
    processLocs b clk txt locs k store =
      (store ++ (processLocs b clk txt locs k []).1,
       (processLocs b clk txt locs k []).2) := by
  induction locs with
  | nil => intro k store; simp [processLocs]
  | cons loc rest ih =>
    intro k store
    simp only [processLocs]
    obtain ⟨h1, h2⟩ := handleLoc_append b clk txt loc k store
    rw [h1, h2,
      ih (handleLoc b clk txt loc k []).2 (store ++ (handleLoc b clk txt loc k []).1),
      ih (handleLoc b clk txt loc k []).2 (handleLoc b clk txt loc k []).1]
    simp [List.append_assoc]

theorem processLocs_coords (b : Str → GeoOutcome) (clk : Nat → Int)
    (txt : Str) (locs : List Str) : ∀ (k : Nat) (store : List AlertRecord)
    (r : AlertRecord), r ∈ (processLocs b clk txt locs k store).1 →
    r ∈ store ∨ ∃ la lo, geocode_location b r.place = (some la, some lo) ∧
      r.lat = some la ∧ r.lon = some lo := by
  induction locs with
  | nil =>
    intro k store r h
    exact Or.inl (by simpa [processLocs] using h)
  | cons loc rest ih =>
    intro k store r h
    simp only [processLocs] at h
    rcases handleLoc_spec b clk txt loc k store with hc | ⟨la, lo, hg, _, _, hc⟩
    · rw [hc] at h
      exact ih _ _ r h
    · rw [hc] at h
      rcases ih _ _ r h with hin | hP
      · rcases List.mem_append.mp hin with h1 | h2
        · exact Or.inl h1
        · right
          have hr : r = ⟨txt, loc, some la, some lo, clk k⟩ := by simpa using h2
          subst hr
          exact ⟨la, lo, hg, rfl, rfl⟩
      · exact Or.inr hP

/-- C4: a record reaches the store only when the geocoder returned a
coordinate pair for its place — every row of the handler's output that
was not already in the store carries the two coordinates the geocoder
produced, both present. -/
theorem persisted_only_if_geocoded (nlp : Str → List Ent)
    (parse : Str → List Str) (b : Str → GeoOutcome) (clk : Nat → Int)
    (text : Str) (store : List AlertRecord) (r : AlertRecord)
    (h : r ∈ telegram_handler nlp parse b clk text store) :
    r ∈ store ∨ ∃ la lo, geocode_location b r.place = (some la, some lo) ∧
      r.lat = some la ∧ r.lon = some lo := by
  unfold telegram_handler at h
  by_cases ht : text = []
  · rw [if_pos ht] at h
    exact Or.inl h
  · rw [if_neg ht] at h
    exact processLocs_coords b clk text (extract_locations nlp parse text) 0 store r h

/-- C4 witness: one resolved location on the empty store yields one row
whose place the geocoder maps to exactly its stored coordinates. -/
theorem persisted_only_if_geocoded_witness :
    (⟨['m'], ['a'], some 1, some 2, 0⟩ : AlertRecord) ∈ ([] : List AlertRecord) ∨
    ∃ la lo, geocode_location (fun _ => GeoOutcome.found 1 2)
        (⟨['m'], ['a'], some 1, some 2, 0⟩ : AlertRecord).place = (some la, some lo) ∧
      (⟨['m'], ['a'], some 1, some 2, 0⟩ : AlertRecord).lat = some la ∧
      (⟨['m'], ['a'], some 1, some 2, 0⟩ : AlertRecord).lon = some lo :=
  persisted_only_if_geocoded (fun _ => [⟨['L', 'O', 'C'], ['a']⟩]) (fun _ => [])
    (fun _ => GeoOutcome.found 1 2) (fun _ => 0) ['m'] []
    ⟨['m'], ['a'], some 1, some 2, 0⟩ (by decide)

/-- C10: a geocode that resolves to a coordinate pair with latitude or
longitude exactly 0 is dropped by the truthiness guard `if lat and lon`;
the store is unchanged and no wall-clock read is consumed. -/
theorem zero_coordinate_dropped (b : Str → GeoOutcome) (clk : Nat → Int)
    (txt loc : Str) (k : Nat) (store : List AlertRecord) (la lo : ℚ)
    (hg : geocode_location b loc = (some la, some lo)) (h0 : la = 0 ∨ lo = 0) :
    handleLoc b clk txt loc k store = (store, k) := by
  have hc : ¬(la ≠ 0 ∧ lo ≠ 0) := by tauto
  simp [handleLoc, hg, hc]

/-- C10 witness: a location resolved to latitude 0 (on the equator) is
silently dropped. -/
theorem zero_coordinate_dropped_witness :
    handleLoc (fun _ => GeoOutcome.found 0 5) (fun _ => 0) ['m'] ['a'] 0 [] = ([], 0) :=
  zero_coordinate_dropped (fun _ => GeoOutcome.found 0 5) (fun _ => 0)
    ['m'] ['a'] 0 [] 0 5 (by decide) (Or.inl rfl)

theorem processLocs_timestamps (b : Str → GeoOutcome) (clk : Nat → Int)
    (txt : Str) (locs : List Str) : ∀ k : Nat,
    ((processLocs b clk txt locs k []).1).map (fun r => r.timestamp) =
      (List.range' k ((processLocs b clk txt locs k []).1).length).map clk := by
  induction locs with
  | nil => intro k; simp [processLocs]
  | cons loc rest ih =>
    intro k
    simp only [processLocs]
    rcases handleLoc_spec b clk txt loc k [] with hc | ⟨la, lo, _, _, _, hc⟩
    · rw [hc]
      exact ih k
    · rw [hc]
      simp only [List.nil_append]
      rw [processLocs_append b clk txt rest (k + 1)
        [⟨txt, loc, some la, some lo, clk k⟩]]
      simp only [List.singleton_append, List.map_cons, List.length_cons,
        List.range'_succ, ih (k + 1)]

/-- C6 (amended): the records a message appends are stamped with the
wall-clock reads made at their own `save_to_csv` calls, in order — the
i-th accepted record carries `clk i` — not with any single
message-level timestamp. -/
theorem record_timestamps_are_save_times (nlp : Str → List Ent)
    (parse : Str → List Str) (b : Str → GeoOutcome) (clk : Nat → Int)
    (text : Str) (store : List AlertRecord) :
    ∃ new, telegram_handler nlp parse b clk text store = store ++ new ∧
      new.map (fun r => r.timestamp) = (List.range new.length).map clk := by
  by_cases ht : text = []
  · exact ⟨[], by simp [telegram_handler, ht], by simp⟩
  · refine ⟨(processLocs b clk text (extract_locations nlp parse text) 0 []).1, ?_, ?_⟩
    · unfold telegram_handler
      rw [if_neg ht,
        processLocs_append b clk text (extract_locations nlp parse text) 0 store]
    · rw [processLocs_timestamps b clk text (extract_locations nlp parse text) 0,
        List.range_eq_range']

/-- C6 counterexample: a two-location message whose geocodes both
resolve produces two rows with different timestamps (the clock advanced
between the two saves), so the rows do not all carry one message
timestamp. -/
theorem message_timestamp_claim_false :
    ¬ (∀ r ∈ telegram_handler
          (fun _ => [⟨['L', 'O', 'C'], ['a']⟩, ⟨['L', 'O', 'C'], ['b']⟩])
          (fun _ => []) (fun _ => GeoOutcome.found 1 2)
          (fun k => (k : Int)) ['m'] [],
        ∀ s ∈ telegram_handler
          (fun _ => [⟨['L', 'O', 'C'], ['a']⟩, ⟨['L', 'O', 'C'], ['b']⟩])
          (fun _ => []) (fun _ => GeoOutcome.found 1 2)
          (fun k => (k : Int)) ['m'] [],
        r.timestamp = s.timestamp) := by decide

theorem foldl_append_filter_map (parse : Str → List Str) (l : List Ent) :
    ∀ acc : List Str,
    l.foldl (fun locs ent =>
        if ent.type = ['L', 'O', 'C'] then locs ++ [normalize_phrase parse ent.text]
        else locs) acc =
      acc ++ (l.filter (fun e => decide (e.type = ['L', 'O', 'C']))).map
        (fun e => normalize_phrase parse e.text) := by
  induction l with
  | nil => intro acc; simp
  | cons e rest ih =>
    intro acc
    by_cases he : e.type = ['L', 'O', 'C'] <;>
      simp [he, ih, List.append_assoc]

/-- C7 (amended): `extract_locations` returns, for each entity the NER
model tags `LOC`, the *normalized* form of its span text — not the
surface text — in left-to-right order of appearance and without
deduplication. -/
theorem extract_locations_normalized (nlp : Str → List Ent)
    (parse : Str → List Str) (text : Str) :
    extract_locations nlp parse text =
      ((nlp text).filter (fun e => decide (e.type = ['L', 'O', 'C']))).map
        (fun e => normalize_phrase parse e.text) := by
  unfold extract_locations
  rw [foldl_append_filter_map parse (nlp text) []]
  simp

/-- C7 counterexample: with a NER model tagging the span `a` as `LOC`
and a morphological analyzer lemmatizing `a` to `x`, the extractor
returns `x`, not the surface text `a` — so it does not return the
spans' surface text. -/
theorem surface_text_claim_false :
    extract_locations (fun _ => [⟨['L', 'O', 'C'], ['a']⟩])
        (fun w => if w = ['a'] then [['x']] else []) ['t'] ≠
      ((((fun _ => [⟨['L', 'O', 'C'], ['a']⟩]) : Str → List Ent) ['t']).filter
          (fun e => decide (e.type = ['L', 'O', 'C']))).map (fun e => e.text) := by
  decide

/-! Splitting and joining lemmas for C3 -/

theorem pySplitAux_tokens : ∀ (cs acc : List Char),
    (∀ c ∈ acc, c.isWhitespace = false) →
    ∀ t ∈ pySplitAux cs acc, t ≠ [] ∧ ∀ c ∈ t, c.isWhitespace = false := by
  intro cs
  induction cs with
  | nil =>
    intro acc hacc t ht
    simp only [pySplitAux] at ht
    by_cases ha : acc = []
    · simp [ha] at ht
    · rw [if_neg ha] at ht
      have : t = acc.reverse := by simpa using ht
      subst this
      refine ⟨by simpa using ha, fun c hc => hacc c (List.mem_reverse.mp hc)⟩
  | cons c cs ih =>
    intro acc hacc t ht
    simp only [pySplitAux] at ht
    by_cases hw : c.isWhitespace
    · rw [if_pos hw] at ht
      by_cases ha : acc = []
      · rw [if_pos ha] at ht
        exact ih [] (by simp) t ht
      · rw [if_neg ha] at ht
        rcases List.mem_cons.mp ht with h1 | h2
        · subst h1
          refine ⟨by simpa using ha, fun d hd => hacc d (List.mem_reverse.mp hd)⟩
        · exact ih [] (by simp) t h2
    · rw [if_neg hw] at ht
      refine ih (c :: acc) ?_ t ht
      intro d hd
      rcases List.mem_cons.mp hd with h1 | h2
      · subst h1; simpa using hw
      · exact hacc d h2

theorem pySplit_tokens (s : Str) :
    ∀ t ∈ pySplit s, t ≠ [] ∧ ∀ c ∈ t, c.isWhitespace = false :=
  pySplitAux_tokens s [] (by simp)

theorem pySplitAux_no_ws : ∀ (w cs acc : List Char),
    (∀ c ∈ w, c.isWhitespace = false) →
    pySplitAux (w ++ cs) acc = pySplitAux cs (w.reverse ++ acc) := by
  intro w
  induction w with
  | nil => intro cs acc _; simp
  | cons c w ih =>
    intro cs acc hw
    have hc : c.isWhitespace = false := hw c (by simp)
    simp only [List.cons_append, pySplitAux, hc, List.append_eq]
    rw [if_neg (by simp [hc])]
    rw [ih cs (c :: acc) (fun d hd => hw d (by simp [hd]))]
    simp

theorem pySplit_joinSpaces : ∀ ts : List Str,
    (∀ t ∈ ts, t ≠ [] ∧ ∀ c ∈ t, c.isWhitespace = false) →
    pySplit (joinSpaces ts) = ts := by
  intro ts
  induction ts with
  | nil => intro _; rfl
  | cons t rest ih =>
    intro hts
    obtain ⟨htne, htws⟩ := hts t (by simp)
    cases rest with
    | nil =>
      show pySplit (joinSpaces [t]) = [t]
      simp only [joinSpaces, pySplit]
      rw [show t = t ++ [] from (List.append_nil t).symm, pySplitAux_no_ws t [] [] htws]
      simp only [pySplitAux, List.append_nil]
      rw [if_neg (by simpa using htne)]
      simp
    | cons v vs =>
      show pySplit (joinSpaces (t :: v :: vs)) = t :: v :: vs
      simp only [joinSpaces, pySplit]
      rw [pySplitAux_no_ws t (' ' :: joinSpaces (v :: vs)) [] htws]
      simp only [pySplitAux, List.append_nil]
      rw [if_pos (by decide), if_neg (by simpa using htne)]
      rw [show pySplitAux (joinSpaces (v :: vs)) [] = pySplit (joinSpaces (v :: vs)) from rfl,
        ih (fun u hu => hts u (by simp [hu]))]
      simp

theorem normalize_phrase_eq (parse : Str → List Str) (phrase : Str) :
    normalize_phrase parse phrase =
      joinSpaces ((pySplit phrase).map (normalize_case parse)) := rfl

/-- C3: `normalize_phrase` is idempotent, under the hypotheses that a
lemma returned by the analyzer re-lemmatizes to itself (`hlem`) and
that a lemma is itself a single token — nonempty and without
whitespace (`htok`, implicit in the claim's "a token already in lemma
form"). -/
theorem normalize_phrase_idempotent (parse : Str → List Str)
    (hlem : ∀ w n rest, parse w = n :: rest → normalize_case parse n = n)
    (htok : ∀ w n rest, parse w = n :: rest →
      n ≠ [] ∧ ∀ c ∈ n, c.isWhitespace = false)
    (p : Str) :
    normalize_phrase parse (normalize_phrase parse p) =
      normalize_phrase parse p := by
  have tokOf : ∀ w : Str, w ∈ pySplit p →
      normalize_case parse w ≠ [] ∧
      ∀ c ∈ normalize_case parse w, c.isWhitespace = false := by
    intro w hw
    cases hp : parse w with
    | nil =>
      rw [show normalize_case parse w = w by simp [normalize_case, hp]]
      exact pySplit_tokens p w hw
    | cons n rest =>
      rw [show normalize_case parse w = n by simp [normalize_case, hp]]
      exact htok w n rest hp
  have fix : ∀ w : Str,
      normalize_case parse (normalize_case parse w) = normalize_case parse w := by
    intro w
    cases hp : parse w with
    | nil => simp [normalize_case, hp]
    | cons n rest =>
      rw [show normalize_case parse w = n by simp [normalize_case, hp]]
      exact hlem w n rest hp
  rw [normalize_phrase_eq parse (normalize_phrase parse p),
    normalize_phrase_eq parse p,
    pySplit_joinSpaces ((pySplit p).map (normalize_case parse)) ?_]
  · rw [List.map_map]
    exact congrArg joinSpaces (List.map_congr_left fun w _ => fix w)
  · intro t ht
    obtain ⟨w, hw, rfl⟩ := List.mem_map.mp ht
    exact tokOf w hw

/-- C3 witness: with an analyzer that never returns a parse, the
hypotheses hold vacuously; normalizing the phrase with extra
whitespace twice equals normalizing it once. -/
theorem normalize_phrase_idempotent_witness :
    normalize_phrase (fun _ => [])
        (normalize_phrase (fun _ => []) [' ', 'a', ' ', ' ', 'b']) =
      normalize_phrase (fun _ => []) [' ', 'a', ' ', ' ', 'b'] :=
  normalize_phrase_idempotent (fun _ => [])
    (fun _ _ _ h => List.noConfusion h)
    (fun _ _ _ h => List.noConfusion h)
    [' ', 'a', ' ', ' ', 'b']
